import Mathlib

/-!
Verification of the sveltemark backup/import subsystem.

The definitions below are a shallow embedding of the TypeScript code in
src/BACKUP_IMPORT_ADAPTER_ANALYSIS.md: the snapshot codec
(exportBackup / JSONAdapter.serialize / JSONAdapter.deserialize) and the
reconciliation engine (importBackup in appState.svelte.ts).  JSON values are
modelled by an inductive type; JSON.parse of an unparseable string is
modelled by the input Option being none, and JSON.parse composed with
JSON.stringify is modelled as the identity on Json values.
-/

namespace SvelteMark

/-- A folder record, as it appears in app state and in the backup format:
fields id, name, parentId, isOpen. -/
structure Folder where
  id : Nat
  name : String
  parentId : Option Nat
  isOpen : Bool
deriving DecidableEq, Repr

/-- A file record, as it appears in app state and in the backup format:
fields id, folderId, title, content, createdAt, updatedAt. -/
structure File where
  id : Nat
  folderId : Option Nat
  title : String
  content : String
  createdAt : String
  updatedAt : String
deriving DecidableEq, Repr

/-- JSON values (the result of JSON.parse).  Numbers are modelled as
integers, the backup format only carries integer ids and versions. -/
inductive Json where
  | null
  | bool (b : Bool)
  | num (n : Int)
  | str (s : String)
  | arr (items : List Json)
  | obj (fields : List (String × Json))
deriving Repr

/-- JavaScript property access backup.key: the value of the first field with
the given key of an object, undefined (none) otherwise. -/
def getField : Json → String → Option Json
  | .obj fields, key => (fields.find? (fun p => p.1 == key)).map (fun p => p.2)
  | _, _ => none

/-- JavaScript truthiness of a possibly-undefined value, as used by the
guard if (!backup.folders || !backup.files): undefined, null, false, 0 and
the empty string are falsy; every array and object is truthy. -/
def truthy : Option Json → Bool
  | none => false
  | some .null => false
  | some (.bool b) => b
  | some (.num n) => n != 0
  | some (.str s) => s != ""
  | some (.arr _) => true
  | some (.obj _) => true

/-- Encoding of a nullable integer id field. -/
def optNatToJson : Option Nat → Json
  | none => .null
  | some n => .num n

/-- The JSON shape of one folder record, as produced by
JSON.stringify on a folder of the app state. -/
def folderToJson (f : Folder) : Json :=
  .obj [("id", .num f.id), ("name", .str f.name),
        ("parentId", optNatToJson f.parentId), ("isOpen", .bool f.isOpen)]

/-- The JSON shape of one file record. -/
def fileToJson (f : File) : Json :=
  .obj [("id", .num f.id), ("folderId", optNatToJson f.folderId),
        ("title", .str f.title), ("content", .str f.content),
        ("createdAt", .str f.createdAt), ("updatedAt", .str f.updatedAt)]

/-- exportBackup (identical to JSONAdapter.serialize): builds the backup
object with version 1, the export timestamp, and the folders and files lists
in their current order, and stringifies it.  Modelled at the Json-value
level; now is the value of new Date().toISOString(). -/
def exportBackup (folders : List Folder) (files : List File) (now : String) : Json :=
  .obj [("version", .num 1), ("exportedAt", .str now),
        ("folders", .arr (folders.map folderToJson)),
        ("files", .arr (files.map fileToJson))]

/-- JSONAdapter.deserialize (the same parse-and-guard also opens the
restore path): JSON.parse the input (none models an unparseable string, whose
SyntaxError propagates), then throw if backup.folders or backup.files is
falsy, else return the parsed object unchanged. -/
def deserialize (data : Option Json) : Except String Json :=
  match data with
  | none => .error "SyntaxError: Unexpected token"
  | some backup =>
    if truthy (getField backup "folders") && truthy (getField backup "files") then
      .ok backup
    else
      .error "Invalid backup format"

/-- Reading back a nullable integer id field (inverse of optNatToJson on
well-formed values). -/
def jsonToOptNat : Json → Option (Option Nat)
  | .null => some none
  | .num (.ofNat n) => some (some n)
  | _ => none

/-- Reading back one folder record from its JSON shape. -/
def folderOfJson (j : Json) : Option Folder :=
  match getField j "id", getField j "name", getField j "parentId", getField j "isOpen" with
  | some (.num (.ofNat i)), some (.str nm), some pj, some (.bool op) =>
    (jsonToOptNat pj).map (fun pid => ⟨i, nm, pid, op⟩)
  | _, _, _, _ => none

/-- Reading back one file record from its JSON shape. -/
def fileOfJson (j : Json) : Option File :=
  match getField j "id", getField j "folderId", getField j "title",
        getField j "content", getField j "createdAt", getField j "updatedAt" with
  | some (.num (.ofNat i)), some fj, some (.str t), some (.str c),
      some (.str ca), some (.str ua) =>
    (jsonToOptNat fj).map (fun fid => ⟨i, fid, t, c, ca, ua⟩)
  | _, _, _, _, _, _ => none

/-- Decode every element of a JSON list, failing if any element fails. -/
def decodeList (g : Json → Option α) : List Json → Option (List α)
  | [] => some []
  | x :: xs =>
    match g x, decodeList g xs with
    | some a, some as => some (a :: as)
    | _, _ => none

/-- The folders list of a decoded backup object, read back as records. -/
def backupFolders (j : Json) : Option (List Folder) :=
  match getField j "folders" with
  | some (.arr xs) => decodeList folderOfJson xs
  | _ => none

/-- The files list of a decoded backup object, read back as records. -/
def backupFiles (j : Json) : Option (List File) :=
  match getField j "files" with
  | some (.arr xs) => decodeList fileOfJson xs
  | _ => none

lemma folderOfJson_folderToJson (f : Folder) : folderOfJson (folderToJson f) = some f := by
  cases f with
  | mk i nm pid op => cases pid <;> rfl

lemma fileOfJson_fileToJson (f : File) : fileOfJson (fileToJson f) = some f := by
  cases f with
  | mk i fid t c ca ua => cases fid <;> rfl

lemma decodeList_map_folders (fs : List Folder) :
    decodeList folderOfJson (fs.map folderToJson) = some fs := by
  induction fs with
  | nil => rfl
  | cons f rest ih => simp [decodeList, folderOfJson_folderToJson, ih]

lemma decodeList_map_files (fs : List File) :
    decodeList fileOfJson (fs.map fileToJson) = some fs := by
  induction fs with
  | nil => rfl
  | cons f rest ih => simp [decodeList, fileOfJson_fileToJson, ih]

/-- C4: decode after encode is the identity on the workspace: for any list of
folder records and file records and any timestamp, deserialize accepts the
exported backup unchanged, its folders and files fields read back to exactly
the input lists in the same order, and its version field is 1.  encode is a
pure function of its inputs (no mutation is expressible in the embedding). -/
theorem roundtrip_decode_encode (fs : List Folder) (ls : List File) (now : String) :
    deserialize (some (exportBackup fs ls now)) = .ok (exportBackup fs ls now) ∧
    backupFolders (exportBackup fs ls now) = some fs ∧
    backupFiles (exportBackup fs ls now) = some ls ∧
    getField (exportBackup fs ls now) "version" = some (.num 1) := by
  refine ⟨rfl, ?_, ?_, rfl⟩
  · simp [backupFolders, exportBackup, getField, decodeList_map_folders]
  · simp [backupFiles, exportBackup, getField, decodeList_map_files]

/-- C5 counterexample: the input with version 999 and empty folders and files
decodes successfully instead of failing with UnsupportedVersion. -/
theorem decode_version_999_succeeds :
    deserialize (some (.obj [("version", .num 999), ("folders", .arr []), ("files", .arr [])]))
      = .ok (.obj [("version", .num 999), ("folders", .arr []), ("files", .arr [])]) := rfl

/-- C5 amended: deserialize never inspects the version field: an input in the
wire-format shape decodes successfully for every value of version, which is
returned as-is. -/
theorem decode_ignores_version (v : Json) (now : String) (fs ls : List Json) :
    deserialize (some (.obj [("version", v), ("exportedAt", .str now),
        ("folders", .arr fs), ("files", .arr ls)]))
      = .ok (.obj [("version", v), ("exportedAt", .str now),
        ("folders", .arr fs), ("files", .arr ls)]) := rfl

/-- C6 counterexample: an input whose folders field is present but is a
number (not a sequence) and whose files field is a non-empty string decodes
successfully instead of failing. -/
theorem decode_nonsequence_succeeds :
    deserialize (some (.obj [("folders", .num 5), ("files", .str "x")]))
      = .ok (.obj [("folders", .num 5), ("files", .str "x")]) := rfl

/-- C6 amended: decode fails exactly when the input is unparseable or one of
the folders and files fields is absent or JavaScript-falsy; any truthy value
(every sequence, but also any non-zero number, non-empty string or object)
is accepted. -/
theorem decode_ok_iff (data : Option Json) (j : Json) :
    deserialize data = .ok j ↔
      (data = some j ∧ truthy (getField j "folders") = true ∧
        truthy (getField j "files") = true) := by
  cases data with
  | none => simp [deserialize]
  | some b =>
    by_cases h : truthy (getField b "folders") && truthy (getField b "files")
    · rw [Bool.and_eq_true] at h
      constructor
      · intro hok
        simp [deserialize, h.1, h.2] at hok
        exact ⟨by rw [hok], by rw [← hok]; exact h.1, by rw [← hok]; exact h.2⟩
      · rintro ⟨hbj, h1, h2⟩
        cases hbj
        simp [deserialize, h.1, h.2]
    · rw [Bool.and_eq_true] at h
      constructor
      · intro hok
        rw [deserialize] at hok
        split at hok
        · rename_i hcond
          rw [Bool.and_eq_true] at hcond
          exact absurd hcond h
        · cases hok
      · rintro ⟨hbj, h1, h2⟩
        cases hbj
        exact absurd ⟨h1, h2⟩ h

/-- The live repository consumed by the reconciliation engine: current
folders and files, and the next identifier it will assign.  The repository
interface (createFolder, deleteFolder, toggleFolderOpen, createFile,
deleteFile) is an external collaborator; it is modelled as a state machine
assigning fresh sequential ids. -/
structure Repo where
  folders : List Folder
  files : List File
  nextId : Nat
deriving DecidableEq, Repr

/-- The module-level app state of appState.svelte.ts that importBackup reads
and writes: the cached folders and files arrays, activeFileId, buffer and
dirty. -/
structure AppState where
  folders : List Folder
  files : List File
  activeFileId : Option Nat
  buffer : String
  dirty : Bool
deriving DecidableEq, Repr

/-- One repository call made by importBackup, recorded with the arguments it
was passed (selectOp records the call to selectFile). -/
inductive Op where
  | delFile (id : Nat)
  | delFolder (id : Nat)
  | newFolder (name : String) (parentId : Option Nat)
  | toggleFolder (id : Nat)
  | newFile (folderId : Option Nat) (title : String) (content : String)
  | selectOp (id : Nat)
deriving DecidableEq, Repr

/-- A decoded backup object with record-shaped folders and files entries
(the shape importBackup's replay phases read field by field). -/
structure Backup where
  version : Int
  exportedAt : String
  folders : List Folder
  files : List File
deriving DecidableEq, Repr

/-- deleteFile repository op. -/
def deleteFileR (r : Repo) (i : Nat) : Repo :=
  { r with files := r.files.filter (fun f => f.id != i) }

/-- deleteFolder repository op. -/
def deleteFolderR (r : Repo) (i : Nat) : Repo :=
  { r with folders := r.folders.filter (fun f => f.id != i) }

/-- createFolder repository op: assigns the next fresh id; new folders
default to open (the snapshot's closed state is applied by a separate
toggle, as the code does). -/
def createFolderR (r : Repo) (name : String) (parentId : Option Nat) : Nat × Repo :=
  (r.nextId,
   { r with folders := r.folders ++ [⟨r.nextId, name, parentId, true⟩],
            nextId := r.nextId + 1 })

/-- toggleFolderOpen repository op: flips isOpen of the folder with the
given id. -/
def toggleFolderOpenR (r : Repo) (i : Nat) : Repo :=
  { r with folders := r.folders.map (fun f =>
      if f.id = i then { f with isOpen := !f.isOpen } else f) }

/-- createFile repository op: assigns the next fresh id; the repository
stamps createdAt/updatedAt itself (empty strings here, irrelevant to all
claims). -/
def createFileR (r : Repo) (folderId : Option Nat) (title content : String) : Nat × Repo :=
  (r.nextId,
   { r with files := r.files ++ [⟨r.nextId, folderId, title, content, "", ""⟩],
            nextId := r.nextId + 1 })

/-- Lookup in the folderIdMap (a JavaScript Record with numeric keys),
folderIdMap[k]: the value of the first entry with key k, undefined (none)
otherwise. -/
def lookupMap (m : List (Nat × Nat)) (k : Nat) : Option Nat :=
  (m.find? (fun e => e.1 == k)).map (fun e => e.2)

/-- The file-wipe loop of importBackup step 1: for each file of the cached
files array, if its id is truthy, await deleteFile(id).  fail says which
deleteFile calls reject; a rejection aborts the loop (the exception
propagates).  Returns the repository, the calls performed, and whether the
loop aborted. -/
def wipeFilesF (fail : Nat → Bool) : List File → Repo → Repo × List Op × Bool
  | [], r => (r, [], false)
  | f :: rest, r =>
    if f.id != 0 then
      if fail f.id then (r, [], true)
      else
        let out := wipeFilesF fail rest (deleteFileR r f.id)
        (out.1, .delFile f.id :: out.2.1, out.2.2)
    else wipeFilesF fail rest r

/-- The folder-wipe loop of importBackup step 1, mirror of the file loop. -/
def wipeFoldersF (fail : Nat → Bool) : List Folder → Repo → Repo × List Op × Bool
  | [], r => (r, [], false)
  | f :: rest, r =>
    if f.id != 0 then
      if fail f.id then (r, [], true)
      else
        let out := wipeFoldersF fail rest (deleteFolderR r f.id)
        (out.1, .delFolder f.id :: out.2.1, out.2.2)
    else wipeFoldersF fail rest r

/-- The folder replay loop of importBackup step 2, over sortedFolders: the
new parent id is folderIdMap[parentId] ?? null (null parentId stays null),
the folder is created with it, oldId ↦ newId is appended to folderIdMap,
and if the snapshot folder's isOpen is false the new folder is toggled
closed. -/
def replayFolders : List Folder → Repo → List (Nat × Nat) → Repo × List (Nat × Nat) × List Op
  | [], r, m => (r, m, [])
  | f :: rest, r, m =>
    let newParentId : Option Nat :=
      match f.parentId with
      | none => none
      | some p => lookupMap m p
    let nid := r.nextId
    let r1 := (createFolderR r f.name newParentId).2
    let r2 := if f.isOpen = false then toggleFolderOpenR r1 nid else r1
    let out := replayFolders rest r2 (m ++ [(f.id, nid)])
    (out.1, out.2.1,
     (Op.newFolder f.name newParentId ::
       (if f.isOpen = false then [Op.toggleFolder nid] else [])) ++ out.2.2)

/-- The file replay loop of importBackup step 3, over backup.files in order:
the new folder id is folderIdMap[folderId] ?? null (null stays null), and
the file is created with it plus the file's title and content. -/
def replayFiles (m : List (Nat × Nat)) : List File → Repo → Repo × List Op
  | [], r => (r, [])
  | fl :: rest, r =>
    let newFolderId : Option Nat :=
      match fl.folderId with
      | none => none
      | some o => lookupMap m o
    let r1 := (createFileR r newFolderId fl.title fl.content).2
    let out := replayFiles m rest r1
    (out.1, Op.newFile newFolderId fl.title fl.content :: out.2)

/-- The outcome of one importBackup run: the final app state, the final
repository, the folderIdMap built during folder replay, and the trace of
repository/selection calls in the order they were made. -/
structure ImportResult where
  state : AppState
  repo : Repo
  folderIdMap : List (Nat × Nat)
  trace : List Op
deriving Repr

/-- Step 1 of importBackup (clear existing data), success path: the
repository after deleting every cached file and then every cached folder. -/
def clearData (st : AppState) (r : Repo) : Repo :=
  (wipeFoldersF (fun _ => false) st.folders (wipeFilesF (fun _ => false) st.files r).1).1

/-- The repository calls performed by step 1: the deleteFile calls, then the
deleteFolder calls. -/
def clearDataOps (st : AppState) (r : Repo) : List Op :=
  (wipeFilesF (fun _ => false) st.files r).2.1 ++
  (wipeFoldersF (fun _ => false) st.folders (wipeFilesF (fun _ => false) st.files r).1).2.1

/-- The folderIdMap as it stands after step 2 (import folders). -/
def folderMapOf (sorted : List Folder) (st : AppState) (r : Repo) : List (Nat × Nat) :=
  (replayFolders sorted (clearData st r) []).2.1

/-- The repository after step 2. -/
def repoAfterFolders (sorted : List Folder) (st : AppState) (r : Repo) : Repo :=
  (replayFolders sorted (clearData st r) []).1

/-- The repository calls performed by step 2. -/
def folderReplayOps (sorted : List Folder) (st : AppState) (r : Repo) : List Op :=
  (replayFolders sorted (clearData st r) []).2.2

/-- The repository after step 3 (import files). -/
def repoAfterFiles (sorted : List Folder) (b : Backup) (st : AppState) (r : Repo) : Repo :=
  (replayFiles (folderMapOf sorted st r) b.files (repoAfterFolders sorted st r)).1

/-- The repository calls performed by step 3. -/
def fileReplayOps (sorted : List Folder) (b : Backup) (st : AppState) (r : Repo) : List Op :=
  (replayFiles (folderMapOf sorted st r) b.files (repoAfterFolders sorted st r)).2

/-- importBackup of appState.svelte.ts, success path of the repository calls
(every await resolves): clear existing data, import folders maintaining
hierarchy, import files with remapped folder references, then refresh UI and
select the first file.  sortedFolders is passed in explicitly: its
construction is not in the source; the spec says it is a topological
parent-before-child sort of backup.folders, and the claims carry the
corresponding hypotheses.  Modelled from the spec: refreshData replaces the
cached folders/files arrays with the repository's current contents, and
selectFile sets activeFileId to the given id (both functions are called but
not defined in the source); step 4 sets activeFileId to null, buffer to the
empty string and dirty to false, then selects files[0] when the refreshed
files list is non-empty, so the final activeFileId is the id of the head of
the refreshed files list, if any. -/
def importBackup (sortedFolders : List Folder) (backup : Backup)
    (st : AppState) (r : Repo) : ImportResult :=
  let rfin := repoAfterFiles sortedFolders backup st r
  ⟨{ folders := rfin.folders, files := rfin.files,
     activeFileId := (rfin.files.head?).map File.id,
     buffer := "", dirty := false },
   rfin, folderMapOf sortedFolders st r,
   clearDataOps st r ++ folderReplayOps sortedFolders st r ++
     fileReplayOps sortedFolders backup st r ++
     ((rfin.files.head?).map (fun f => Op.selectOp f.id)).toList⟩

/-- Recognizer for deleteFile calls in a trace. -/
def Op.isDelFile : Op → Bool
  | .delFile _ => true
  | _ => false

/-- Recognizer for deleteFolder calls in a trace. -/
def Op.isDelFolder : Op → Bool
  | .delFolder _ => true
  | _ => false

/-- Recognizer for createFolder calls in a trace. -/
def Op.isNewFolder : Op → Bool
  | .newFolder _ _ => true
  | _ => false

/-- Recognizer for createFile calls in a trace. -/
def Op.isNewFile : Op → Bool
  | .newFile _ _ _ => true
  | _ => false

/-- Recognizer for selectFile calls in a trace. -/
def Op.isSelect : Op → Bool
  | .selectOp _ => true
  | _ => false

/-- The old-id keys of the folderIdMap. -/
def keysOf (m : List (Nat × Nat)) : List Nat := m.map Prod.fst

lemma lookupMap_eq_none {m : List (Nat × Nat)} {k : Nat} (h : k ∉ keysOf m) :
    lookupMap m k = none := by
  have hf : m.find? (fun e => e.1 == k) = none := by
    rw [List.find?_eq_none]
    intro e he hk
    exact h (List.mem_map.mpr ⟨e, he, by simpa using hk⟩)
  simp [lookupMap, hf]

lemma lookupMap_isSome {m : List (Nat × Nat)} {k : Nat} (h : k ∈ keysOf m) :
    (lookupMap m k).isSome = true := by
  rcases List.mem_map.mp h with ⟨e, he, hk⟩
  rw [lookupMap]
  have h2 : (m.find? fun x => x.1 == k).isSome :=
    List.find?_isSome.mpr ⟨e, he, by simpa using hk⟩
  rcases Option.isSome_iff_exists.mp h2 with ⟨e2, he2⟩
  rw [he2]
  rfl

lemma lookupMap_append_left {m m2 : List (Nat × Nat)} {k : Nat}
    (h : (lookupMap m k).isSome = true) : lookupMap (m ++ m2) k = lookupMap m k := by
  rw [lookupMap, lookupMap] at *
  rcases hfind : m.find? (fun x => x.1 == k) with _ | e
  · rw [hfind] at h
    simp at h
  · rw [List.find?_append, hfind]
    rfl

lemma wipeFilesF_ops_shape (fail : Nat → Bool) (fs : List File) (r : Repo) :
    ∀ o ∈ (wipeFilesF fail fs r).2.1, ∃ i, o = Op.delFile i := by
  induction fs generalizing r with
  | nil => intro o ho; simp [wipeFilesF] at ho
  | cons f rest ih =>
    intro o ho
    simp only [wipeFilesF] at ho
    split at ho
    · split at ho
      · simp at ho
      · rcases List.mem_cons.mp ho with h | h
        · exact ⟨f.id, h⟩
        · exact ih _ o h
    · exact ih r o ho

lemma wipeFoldersF_ops_shape (fail : Nat → Bool) (fs : List Folder) (r : Repo) :
    ∀ o ∈ (wipeFoldersF fail fs r).2.1, ∃ i, o = Op.delFolder i := by
  induction fs generalizing r with
  | nil => intro o ho; simp [wipeFoldersF] at ho
  | cons f rest ih =>
    intro o ho
    simp only [wipeFoldersF] at ho
    split at ho
    · split at ho
      · simp at ho
      · rcases List.mem_cons.mp ho with h | h
        · exact ⟨f.id, h⟩
        · exact ih _ o h
    · exact ih r o ho

lemma replayFolders_ops_shape (fs : List Folder) (r : Repo) (m : List (Nat × Nat)) :
    ∀ o ∈ (replayFolders fs r m).2.2,
      (∃ n p, o = Op.newFolder n p) ∨ (∃ i, o = Op.toggleFolder i) := by
  induction fs generalizing r m with
  | nil => intro o ho; simp [replayFolders] at ho
  | cons f rest ih =>
    intro o ho
    simp only [replayFolders] at ho
    rw [List.cons_append, List.mem_cons] at ho
    rcases ho with h | h
    · exact Or.inl ⟨f.name, _, h⟩
    · rw [List.mem_append] at h
      rcases h with h | h
      · split at h
        · rcases List.mem_singleton.mp h with rfl
          exact Or.inr ⟨r.nextId, rfl⟩
        · simp at h
      · exact ih _ _ o h

lemma replayFiles_trace (m : List (Nat × Nat)) (fls : List File) (r : Repo) :
    (replayFiles m fls r).2 =
      fls.map (fun fl => Op.newFile (fl.folderId.bind (lookupMap m)) fl.title fl.content) := by
  induction fls generalizing r with
  | nil => rfl
  | cons fl rest ih =>
    simp only [replayFiles, List.map_cons, ih]
    congr 1
    cases fl.folderId <;> rfl

lemma replayFolders_keys (fs : List Folder) (r : Repo) (m : List (Nat × Nat)) :
    keysOf (replayFolders fs r m).2.1 = keysOf m ++ fs.map Folder.id := by
  induction fs generalizing r m with
  | nil => simp [replayFolders]
  | cons f rest ih =>
    simp only [replayFolders, ih]
    simp [keysOf]

lemma replayFolders_newFolder_count (fs : List Folder) (r : Repo) (m : List (Nat × Nat)) :
    ((replayFolders fs r m).2.2.filter Op.isNewFolder).length = fs.length := by
  induction fs generalizing r m with
  | nil => rfl
  | cons f rest ih =>
    simp only [replayFolders]
    rw [List.cons_append, List.filter_cons]
    split
    · rw [List.length_cons, List.filter_append, List.length_append]
      have htog : (if f.isOpen = false then [Op.toggleFolder r.nextId] else []).filter
          Op.isNewFolder = [] := by
        split <;> rfl
      rw [htog]
      simp [ih]
    · rename_i hcon
      exact absurd rfl hcon

lemma filter_eq_nil_of_shape {l : List Op} {p : Op → Bool}
    (h : ∀ o ∈ l, p o = false) : l.filter p = [] := by
  induction l with
  | nil => rfl
  | cons x xs ih =>
    rw [List.filter_cons, if_neg (by simp [h x (List.mem_cons_self x xs)])]
    exact ih (fun o ho => h o (List.mem_cons_of_mem x ho))

lemma clearDataOps_shape (st : AppState) (r : Repo) :
    ∀ o ∈ clearDataOps st r, (∃ i, o = Op.delFile i) ∨ (∃ i, o = Op.delFolder i) := by
  intro o ho
  rcases List.mem_append.mp ho with h | h
  · exact Or.inl (wipeFilesF_ops_shape _ _ _ o h)
  · exact Or.inr (wipeFoldersF_ops_shape _ _ _ o h)

lemma fileReplayOps_shape (sorted : List Folder) (b : Backup) (st : AppState) (r : Repo) :
    ∀ o ∈ fileReplayOps sorted b st r, ∃ a t c, o = Op.newFile a t c := by
  intro o ho
  rw [fileReplayOps, replayFiles_trace] at ho
  rcases List.mem_map.mp ho with ⟨fl, _, h⟩
  exact ⟨_, _, _, h.symm⟩

/-- Sample workspace: one folder and one file inside it. -/
def sampleStateA : AppState :=
  ⟨[⟨1, "F", none, true⟩], [⟨1, some 1, "a", "b", "", ""⟩], none, "", false⟩

/-- The repository matching sampleStateA. -/
def sampleRepoA : Repo :=
  ⟨[⟨1, "F", none, true⟩], [⟨1, some 1, "a", "b", "", ""⟩], 2⟩

/-- A snapshot file whose folderId 99 resolves to no folder of its snapshot. -/
def danglingFile : File := ⟨7, some 99, "x", "y", "", ""⟩

/-- A snapshot with no folders and one file with a dangling folderId. -/
def danglingBackup : Backup := ⟨1, "t", [], [danglingFile]⟩

/-- C1 counterexample: importing a snapshot with a file whose folderId is 99
and no folder 99 does not fail before mutating: the run completes, the
target repository's folder count drops from 1 to 0, and the dangling file is
created with folderId null. -/
theorem import_dangling_no_failure :
    (importBackup [] danglingBackup sampleStateA sampleRepoA).repo.folders.length = 0 ∧
    sampleRepoA.folders.length = 1 ∧
    (importBackup [] danglingBackup sampleStateA sampleRepoA).repo.files =
      [⟨2, none, "x", "y", "", ""⟩] ∧
    (importBackup [] danglingBackup sampleStateA sampleRepoA).trace =
      [Op.delFile 1, Op.delFolder 1, Op.newFile none "x" "y", Op.selectOp 2] := by
  decide

/-- C1 amended: importBackup performs no dangling-reference validation: it
proceeds through the destructive phases, and a file whose folderId
has no entry in the folderIdMap (in particular one referencing no folder of
the snapshot) is created with folderId null instead of aborting. -/
theorem import_dangling_creates_null_file (sorted : List Folder) (b : Backup)
    (st : AppState) (r : Repo) (fl : File) (o : Nat)
    (hmem : fl ∈ b.files) (ho : fl.folderId = some o)
    (hnot : o ∉ sorted.map Folder.id) :
    Op.newFile none fl.title fl.content ∈ (importBackup sorted b st r).trace := by
  have hkeys : keysOf (folderMapOf sorted st r) = sorted.map Folder.id := by
    rw [folderMapOf, replayFolders_keys]
    rfl
  have hlook : lookupMap (folderMapOf sorted st r) o = none :=
    lookupMap_eq_none (by rw [hkeys]; exact hnot)
  have hin : Op.newFile none fl.title fl.content ∈ fileReplayOps sorted b st r := by
    rw [fileReplayOps, replayFiles_trace]
    refine List.mem_map.mpr ⟨fl, hmem, ?_⟩
    rw [ho]
    simp [hlook]
  show _ ∈ clearDataOps st r ++ folderReplayOps sorted st r ++
      fileReplayOps sorted b st r ++ _
  exact List.mem_append_left _ (List.mem_append_right _ hin)

/-- C1 amended, witness at the concrete dangling snapshot. -/
theorem import_dangling_witness :
    Op.newFile none danglingFile.title danglingFile.content ∈
      (importBackup [] danglingBackup sampleStateA sampleRepoA).trace :=
  import_dangling_creates_null_file [] danglingBackup sampleStateA sampleRepoA
    danglingFile 99 (by decide) (by decide) (by decide)

/-- Folder A of the two-cycle: its parentId is folder B's id. -/
def folderA : Folder := ⟨1, "A", some 2, true⟩

/-- Folder B of the two-cycle: its parentId is folder A's id. -/
def folderB : Folder := ⟨2, "B", some 1, true⟩

/-- A snapshot whose two folders form a parent-reference cycle. -/
def cyclicBackup : Backup := ⟨1, "t", [folderA, folderB], []⟩

/-- An empty app state. -/
def emptyState : AppState := ⟨[], [], none, "", false⟩

/-- An empty repository whose next id is 10. -/
def emptyRepo : Repo := ⟨[], [], 10⟩

/-- C2 counterexample: on the snapshot whose folders A and B reference each
other as parents, the folder replay completes silently instead of failing
with CyclicHierarchy: both folders are created, the first with its
unresolvable parent reference mapped to null. -/
theorem import_cycle_completes_silently :
    (importBackup [folderA, folderB] cyclicBackup emptyState emptyRepo).repo.folders =
      [⟨10, "A", none, true⟩, ⟨11, "B", some 10, true⟩] ∧
    (importBackup [folderA, folderB] cyclicBackup emptyState emptyRepo).trace =
      [Op.newFolder "A" none, Op.newFolder "B" (some 10)] := by
  decide

/-- C2 amended: the folder replay is a single pass that terminates on every
input, cyclic or not, and never raises any error: every run of importBackup
performs exactly one createFolder call per entry of sortedFolders, a parent
reference not yet in the folderIdMap resolving silently to null. -/
theorem folder_replay_always_completes (sorted : List Folder) (b : Backup)
    (st : AppState) (r : Repo) :
    ((importBackup sorted b st r).trace.filter Op.isNewFolder).length = sorted.length := by
  have h1 : (clearDataOps st r).filter Op.isNewFolder = [] :=
    filter_eq_nil_of_shape (by
      intro o ho
      rcases clearDataOps_shape st r o ho with ⟨i, h⟩ | ⟨i, h⟩ <;> rw [h] <;> rfl)
  have h3 : (fileReplayOps sorted b st r).filter Op.isNewFolder = [] :=
    filter_eq_nil_of_shape (by
      intro o ho
      rcases fileReplayOps_shape sorted b st r o ho with ⟨a, t2, c, h⟩
      rw [h]
      rfl)
  have h4 : ((((repoAfterFiles sorted b st r).files.head?).map
      (fun f => Op.selectOp f.id)).toList).filter Op.isNewFolder = [] := by
    cases ((repoAfterFiles sorted b st r).files.head?) <;> rfl
  have h2 : ((folderReplayOps sorted st r).filter Op.isNewFolder).length = sorted.length :=
    replayFolders_newFolder_count _ _ _
  show ((clearDataOps st r ++ folderReplayOps sorted st r ++ fileReplayOps sorted b st r ++
      (((repoAfterFiles sorted b st r).files.head?).map
        (fun f => Op.selectOp f.id)).toList).filter Op.isNewFolder).length = _
  rw [List.filter_append, List.filter_append, List.filter_append, h1, h3, h4]
  simpa using h2

/-- A file with id 1 for the wipe counterexample. -/
def fileOne : File := ⟨1, none, "a", "", "", ""⟩

/-- A file with id 2 for the wipe counterexample. -/
def fileTwo : File := ⟨2, none, "b", "", "", ""⟩

/-- C7 counterexample: when deleteFile rejects for file id 1, the wipe loop
performs no further deletions: the loop aborts, file 2's deletion is never
attempted (no deleteFile call at all is recorded), and nothing is collected. -/
theorem wipe_abort_counterexample :
    (wipeFilesF (fun n => n == 1) [fileOne, fileTwo] ⟨[], [fileOne, fileTwo], 3⟩).2.2 = true ∧
    (wipeFilesF (fun n => n == 1) [fileOne, fileTwo] ⟨[], [fileOne, fileTwo], 3⟩).2.1 = [] ∧
    (wipeFilesF (fun n => n == 1) [fileOne, fileTwo] ⟨[], [fileOne, fileTwo], 3⟩).1.files =
      [fileOne, fileTwo] := by
  decide

lemma wipeFilesF_abort (fail : Nat → Bool) (pre post : List File) (f : File)
    (hf : f.id ≠ 0) (hfail : fail f.id = true)
    (hpre : ∀ g ∈ pre, g.id ≠ 0 → fail g.id = false) :
    ∀ r : Repo,
      (wipeFilesF fail (pre ++ f :: post) r).2.2 = true ∧
      (wipeFilesF fail (pre ++ f :: post) r).2.1 =
        pre.filterMap (fun g => if g.id != 0 then some (Op.delFile g.id) else none) := by
  induction pre with
  | nil =>
    intro r
    simp only [List.nil_append, wipeFilesF, List.filterMap_nil]
    rw [if_pos (by simpa using hf), if_pos hfail]
    exact ⟨rfl, rfl⟩
  | cons g pre ih =>
    intro r
    have hgrest : ∀ x ∈ pre, x.id ≠ 0 → fail x.id = false := fun x hx =>
      hpre x (List.mem_cons_of_mem g hx)
    rw [List.cons_append, List.filterMap_cons]
    simp only [wipeFilesF]
    rcases hb : (g.id != 0) with _ | _
    · rw [if_neg (by simp)]
      exact ih hgrest r
    · rw [if_pos rfl]
      have hgf : fail g.id = false := hpre g (List.mem_cons_self g pre) (by simpa using hb)
      rw [if_neg (by simp [hgf])]
      refine ⟨(ih hgrest _).1, ?_⟩
      rw [(ih hgrest _).2]
      rfl

lemma wipeFoldersF_abort (fail : Nat → Bool) (pre post : List Folder) (f : Folder)
    (hf : f.id ≠ 0) (hfail : fail f.id = true)
    (hpre : ∀ g ∈ pre, g.id ≠ 0 → fail g.id = false) :
    ∀ r : Repo,
      (wipeFoldersF fail (pre ++ f :: post) r).2.2 = true ∧
      (wipeFoldersF fail (pre ++ f :: post) r).2.1 =
        pre.filterMap (fun g => if g.id != 0 then some (Op.delFolder g.id) else none) := by
  induction pre with
  | nil =>
    intro r
    simp only [List.nil_append, wipeFoldersF, List.filterMap_nil]
    rw [if_pos (by simpa using hf), if_pos hfail]
    exact ⟨rfl, rfl⟩
  | cons g pre ih =>
    intro r
    have hgrest : ∀ x ∈ pre, x.id ≠ 0 → fail x.id = false := fun x hx =>
      hpre x (List.mem_cons_of_mem g hx)
    rw [List.cons_append, List.filterMap_cons]
    simp only [wipeFoldersF]
    rcases hb : (g.id != 0) with _ | _
    · rw [if_neg (by simp)]
      exact ih hgrest r
    · rw [if_pos rfl]
      have hgf : fail g.id = false := hpre g (List.mem_cons_self g pre) (by simpa using hb)
      rw [if_neg (by simp [hgf])]
      refine ⟨(ih hgrest _).1, ?_⟩
      rw [(ih hgrest _).2]
      rfl

/-- C7 amended: in both wipe loops a single rejected deletion aborts the
loop immediately: the exception propagates, the deletions performed are
exactly those of the items before the first failing one, and the remaining
items are never attempted; no failure collection takes place. -/
theorem wipe_stops_at_first_failure (fail : Nat → Bool) (r : Repo) :
    (∀ (pre post : List File) (f : File), f.id ≠ 0 → fail f.id = true →
      (∀ g ∈ pre, g.id ≠ 0 → fail g.id = false) →
      (wipeFilesF fail (pre ++ f :: post) r).2.2 = true ∧
      (wipeFilesF fail (pre ++ f :: post) r).2.1 =
        pre.filterMap (fun g => if g.id != 0 then some (Op.delFile g.id) else none)) ∧
    (∀ (pre post : List Folder) (f : Folder), f.id ≠ 0 → fail f.id = true →
      (∀ g ∈ pre, g.id ≠ 0 → fail g.id = false) →
      (wipeFoldersF fail (pre ++ f :: post) r).2.2 = true ∧
      (wipeFoldersF fail (pre ++ f :: post) r).2.1 =
        pre.filterMap (fun g => if g.id != 0 then some (Op.delFolder g.id) else none)) :=
  ⟨fun pre post f hf hfail hpre => wipeFilesF_abort fail pre post f hf hfail hpre r,
   fun pre post f hf hfail hpre => wipeFoldersF_abort fail pre post f hf hfail hpre r⟩

/-- C7 amended, witness: concrete aborting runs of both wipe loops. -/
theorem wipe_stops_witness :
    ((wipeFilesF (fun n => n == 2) ([fileOne] ++ fileTwo :: []) ⟨[], [], 0⟩).2.2 = true ∧
     (wipeFilesF (fun n => n == 2) ([fileOne] ++ fileTwo :: []) ⟨[], [], 0⟩).2.1 =
       [fileOne].filterMap (fun g => if g.id != 0 then some (Op.delFile g.id) else none)) ∧
    ((wipeFoldersF (fun n => n == 2) ([folderA] ++ folderB :: []) ⟨[], [], 0⟩).2.2 = true ∧
     (wipeFoldersF (fun n => n == 2) ([folderA] ++ folderB :: []) ⟨[], [], 0⟩).2.1 =
       [folderA].filterMap (fun g => if g.id != 0 then some (Op.delFolder g.id) else none)) :=
  ⟨(wipe_stops_at_first_failure (fun n => n == 2) ⟨[], [], 0⟩).1 [fileOne] [] fileTwo
      (by decide) (by decide) (by decide),
   (wipe_stops_at_first_failure (fun n => n == 2) ⟨[], [], 0⟩).2 [folderA] [] folderB
      (by decide) (by decide) (by decide)⟩

/-- C10: after the file replay, importBackup itself refreshes the cached
folders and files from the repository, clears the buffer, clears the dirty
flag, and the final active file id is the id of the first file of the
refreshed list exactly when that list is non-empty (the selectFile call
being recorded in the trace exactly in that case); when the list is empty no
file is selected. -/
theorem import_refreshes_and_selects_first (sorted : List Folder) (b : Backup)
    (st : AppState) (r : Repo) :
    (importBackup sorted b st r).state.folders = (importBackup sorted b st r).repo.folders ∧
    (importBackup sorted b st r).state.files = (importBackup sorted b st r).repo.files ∧
    (importBackup sorted b st r).state.buffer = "" ∧
    (importBackup sorted b st r).state.dirty = false ∧
    (importBackup sorted b st r).state.activeFileId =
      ((importBackup sorted b st r).repo.files.head?).map File.id ∧
    (importBackup sorted b st r).trace.filter Op.isSelect =
      (((importBackup sorted b st r).repo.files.head?).map
        (fun f => Op.selectOp f.id)).toList := by
  refine ⟨rfl, rfl, rfl, rfl, rfl, ?_⟩
  have h1 : (clearDataOps st r).filter Op.isSelect = [] :=
    filter_eq_nil_of_shape (by
      intro o ho
      rcases clearDataOps_shape st r o ho with ⟨i, h⟩ | ⟨i, h⟩ <;> rw [h] <;> rfl)
  have h2 : (folderReplayOps sorted st r).filter Op.isSelect = [] :=
    filter_eq_nil_of_shape (by
      intro o ho
      rw [folderReplayOps] at ho
      rcases replayFolders_ops_shape _ _ _ o ho with ⟨n, p, h⟩ | ⟨i, h⟩ <;> rw [h] <;> rfl)
  have h3 : (fileReplayOps sorted b st r).filter Op.isSelect = [] :=
    filter_eq_nil_of_shape (by
      intro o ho
      rcases fileReplayOps_shape sorted b st r o ho with ⟨a, t2, c, h⟩
      rw [h]
      rfl)
  have h4 : ((((repoAfterFiles sorted b st r).files.head?).map
      (fun f => Op.selectOp f.id)).toList).filter Op.isSelect =
      (((repoAfterFiles sorted b st r).files.head?).map
        (fun f => Op.selectOp f.id)).toList := by
    cases ((repoAfterFiles sorted b st r).files.head?) <;> rfl
  show (clearDataOps st r ++ folderReplayOps sorted st r ++ fileReplayOps sorted b st r ++
      (((repoAfterFiles sorted b st r).files.head?).map
        (fun f => Op.selectOp f.id)).toList).filter Op.isSelect = _
  rw [List.filter_append, List.filter_append, List.filter_append, h1, h2, h3, h4]
  rfl

lemma filter_eq_self_of_shape {l : List Op} {p : Op → Bool}
    (h : ∀ o ∈ l, p o = true) : l.filter p = l := by
  induction l with
  | nil => rfl
  | cons x xs ih =>
    rw [List.filter_cons, if_pos (by simp [h x (List.mem_cons_self x xs)])]
    rw [ih (fun o ho => h o (List.mem_cons_of_mem x ho))]

/-- C8: for every snapshot all of whose file folderIds reference ids of the
replayed folders (the condition under which every reference resolves in the
remap table), the createFile calls of an importBackup run are exactly the
snapshot's files in the snapshot's original order, never reordered, each
receiving the folderIdMap image of the file's folderId (null staying null)
together with the file's title and content; the folderIdMap's keys are
exactly the replayed folders' old ids, and every non-null folderId has an
image in it. -/
theorem files_created_in_order_remapped (sorted : List Folder) (b : Backup)
    (st : AppState) (r : Repo)
    (hres : ∀ fl ∈ b.files, ∀ o, fl.folderId = some o → o ∈ sorted.map Folder.id) :
    keysOf (importBackup sorted b st r).folderIdMap = sorted.map Folder.id ∧
    (importBackup sorted b st r).trace.filter Op.isNewFile =
      b.files.map (fun fl =>
        Op.newFile (fl.folderId.bind (lookupMap (importBackup sorted b st r).folderIdMap))
          fl.title fl.content) ∧
    (∀ fl ∈ b.files, ∀ o, fl.folderId = some o →
      (lookupMap (importBackup sorted b st r).folderIdMap o).isSome = true) := by
  have hkeys : keysOf (folderMapOf sorted st r) = sorted.map Folder.id := by
    rw [folderMapOf, replayFolders_keys]
    rfl
  refine ⟨hkeys, ?_, ?_⟩
  · have h1 : (clearDataOps st r).filter Op.isNewFile = [] :=
      filter_eq_nil_of_shape (by
        intro o ho
        rcases clearDataOps_shape st r o ho with ⟨i, h⟩ | ⟨i, h⟩ <;> rw [h] <;> rfl)
    have h2 : (folderReplayOps sorted st r).filter Op.isNewFile = [] :=
      filter_eq_nil_of_shape (by
        intro o ho
        rw [folderReplayOps] at ho
        rcases replayFolders_ops_shape _ _ _ o ho with ⟨n, p, h⟩ | ⟨i, h⟩ <;> rw [h] <;> rfl)
    have h3 : (fileReplayOps sorted b st r).filter Op.isNewFile =
        fileReplayOps sorted b st r :=
      filter_eq_self_of_shape (by
        intro o ho
        rcases fileReplayOps_shape sorted b st r o ho with ⟨a, t2, c, h⟩
        rw [h]
        rfl)
    have h4 : ((((repoAfterFiles sorted b st r).files.head?).map
        (fun f => Op.selectOp f.id)).toList).filter Op.isNewFile = [] := by
      cases ((repoAfterFiles sorted b st r).files.head?) <;> rfl
    show (clearDataOps st r ++ folderReplayOps sorted st r ++ fileReplayOps sorted b st r ++
        (((repoAfterFiles sorted b st r).files.head?).map
          (fun f => Op.selectOp f.id)).toList).filter Op.isNewFile = _
    rw [List.filter_append, List.filter_append, List.filter_append, h1, h2, h3, h4,
      List.nil_append, List.nil_append, List.append_nil]
    rw [fileReplayOps, replayFiles_trace]
    rfl
  · intro fl hfl o ho
    have hc8 : o ∈ keysOf (folderMapOf sorted st r) := by
      rw [hkeys]
      exact hres fl hfl o ho
    exact lookupMap_isSome hc8

/-- The single folder of the C8 witness snapshot, with old id 5. -/
def folderF : Folder := ⟨5, "F", none, true⟩

/-- The C8 witness snapshot: one folder and two files, the first filed in
folder 5, the second unfiled. -/
def orderBackup : Backup :=
  ⟨1, "t", [folderF], [⟨1, some 5, "u", "v", "", ""⟩, ⟨2, none, "w", "z", "", ""⟩]⟩

/-- C8, witness at the concrete snapshot. -/
theorem files_created_witness :
    keysOf (importBackup [folderF] orderBackup emptyState emptyRepo).folderIdMap =
      [folderF].map Folder.id ∧
    (importBackup [folderF] orderBackup emptyState emptyRepo).trace.filter Op.isNewFile =
      orderBackup.files.map (fun fl =>
        Op.newFile
          (fl.folderId.bind
            (lookupMap (importBackup [folderF] orderBackup emptyState emptyRepo).folderIdMap))
          fl.title fl.content) ∧
    (∀ fl ∈ orderBackup.files, ∀ o, fl.folderId = some o →
      (lookupMap (importBackup [folderF] orderBackup emptyState emptyRepo).folderIdMap
        o).isSome = true) :=
  files_created_in_order_remapped [folderF] orderBackup emptyState emptyRepo (by
    intro fl hfl o ho
    fin_cases hfl <;> simp_all [folderF, orderBackup])

lemma index_lt_of_split (l1 l2 : List Op) (p q : Op → Bool)
    (hp : ∀ o ∈ l2, p o = false) (hq : ∀ o ∈ l1, q o = false)
    (i j : Nat) (hi : i < (l1 ++ l2).length) (hj : j < (l1 ++ l2).length)
    (hpi : p ((l1 ++ l2).get ⟨i, hi⟩) = true) (hqj : q ((l1 ++ l2).get ⟨j, hj⟩) = true) :
    i < j := by
  have hi1 : i < l1.length := by
    by_contra hcon
    push_neg at hcon
    have hlt : i - l1.length < l2.length := by
      rw [List.length_append] at hi
      omega
    have hge : (l1 ++ l2).get ⟨i, hi⟩ = l2.get ⟨i - l1.length, hlt⟩ := by
      rw [List.get_eq_getElem, List.get_eq_getElem, List.getElem_append_right hcon]
    rw [hge] at hpi
    rw [hp _ (List.get_mem l2 _ _)] at hpi
    cases hpi
  have hj1 : l1.length ≤ j := by
    by_contra hcon
    push_neg at hcon
    have hlt : (l1 ++ l2).get ⟨j, hj⟩ = l1.get ⟨j, hcon⟩ := by
      rw [List.get_eq_getElem, List.get_eq_getElem, List.getElem_append_left]
    rw [hlt] at hqj
    rw [hq _ (List.get_mem l1 _ _)] at hqj
    cases hqj
  omega

lemma folderReplayOps_not_del (sorted : List Folder) (st : AppState) (r : Repo) :
    ∀ o ∈ folderReplayOps sorted st r,
      Op.isDelFile o = false ∧ Op.isDelFolder o = false ∧ Op.isNewFile o = false := by
  intro o ho
  rw [folderReplayOps] at ho
  rcases replayFolders_ops_shape _ _ _ o ho with ⟨n, p, h⟩ | ⟨i, h⟩ <;> rw [h] <;>
    exact ⟨rfl, rfl, rfl⟩

lemma fileReplayOps_only_newFile (sorted : List Folder) (b : Backup)
    (st : AppState) (r : Repo) :
    ∀ o ∈ fileReplayOps sorted b st r,
      Op.isDelFile o = false ∧ Op.isDelFolder o = false ∧ Op.isNewFolder o = false := by
  intro o ho
  rcases fileReplayOps_shape sorted b st r o ho with ⟨a, t2, c, h⟩
  rw [h]
  exact ⟨rfl, rfl, rfl⟩

lemma selOps_shape (sorted : List Folder) (b : Backup) (st : AppState) (r : Repo) :
    ∀ o ∈ ((((repoAfterFiles sorted b st r).files.head?).map
        (fun f => Op.selectOp f.id)).toList),
      Op.isDelFile o = false ∧ Op.isDelFolder o = false ∧
        Op.isNewFolder o = false ∧ Op.isNewFile o = false := by
  intro o ho
  cases hh : ((repoAfterFiles sorted b st r).files.head?) with
  | none => rw [hh] at ho; cases ho
  | some f =>
    rw [hh] at ho
    rcases List.mem_singleton.mp ho with rfl
    exact ⟨rfl, rfl, rfl, rfl⟩

/-- C9: in every importBackup run, every deleteFile call precedes every
deleteFolder call, the whole wipe (deleteFile and deleteFolder calls)
precedes every createFolder call, and every createFolder call precedes every
createFile call: the phases never interleave. -/
theorem import_phases_ordered (sorted : List Folder) (b : Backup)
    (st : AppState) (r : Repo) :
    ∀ (i j : Nat) (hi : i < (importBackup sorted b st r).trace.length)
      (hj : j < (importBackup sorted b st r).trace.length),
      (Op.isDelFile ((importBackup sorted b st r).trace.get ⟨i, hi⟩) = true →
        Op.isDelFolder ((importBackup sorted b st r).trace.get ⟨j, hj⟩) = true → i < j) ∧
      ((Op.isDelFile ((importBackup sorted b st r).trace.get ⟨i, hi⟩) = true ∨
        Op.isDelFolder ((importBackup sorted b st r).trace.get ⟨i, hi⟩) = true) →
        Op.isNewFolder ((importBackup sorted b st r).trace.get ⟨j, hj⟩) = true → i < j) ∧
      (Op.isNewFolder ((importBackup sorted b st r).trace.get ⟨i, hi⟩) = true →
        Op.isNewFile ((importBackup sorted b st r).trace.get ⟨j, hj⟩) = true → i < j) := by
  intro i j hi hj
  have hshape1 := wipeFilesF_ops_shape (fun _ => false) st.files r
  have hshape2 := wipeFoldersF_ops_shape (fun _ => false) st.folders
    (wipeFilesF (fun _ => false) st.files r).1
  have hshape3 := folderReplayOps_not_del sorted st r
  have hshape4 := fileReplayOps_only_newFile sorted b st r
  have hshape5 := selOps_shape sorted b st r
  have htr : (importBackup sorted b st r).trace =
      (wipeFilesF (fun _ => false) st.files r).2.1 ++
        ((wipeFoldersF (fun _ => false) st.folders
            (wipeFilesF (fun _ => false) st.files r).1).2.1 ++
          (folderReplayOps sorted st r ++
            (fileReplayOps sorted b st r ++
              (((repoAfterFiles sorted b st r).files.head?).map
                (fun f => Op.selectOp f.id)).toList))) := by
    show clearDataOps st r ++ _ ++ _ ++ _ = _
    rw [clearDataOps]
    simp [List.append_assoc]
  refine ⟨?_, ?_, ?_⟩
  · intro hpi hqj
    revert hi hj hpi hqj
    rw [htr]
    intro hi hj hpi hqj
    refine index_lt_of_split _ _ Op.isDelFile Op.isDelFolder ?_ ?_ i j hi hj hpi hqj
    · intro o ho
      rcases List.mem_append.mp ho with h | h
      · rcases hshape2 o h with ⟨k, rfl⟩
        rfl
      · rcases List.mem_append.mp h with h | h
        · exact (hshape3 o h).1
        · rcases List.mem_append.mp h with h | h
          · exact (hshape4 o h).1
          · exact (hshape5 o h).1
    · intro o ho
      rcases hshape1 o ho with ⟨k, rfl⟩
      rfl
  · intro hpi hqj
    revert hi hj hpi hqj
    have htr2 : (importBackup sorted b st r).trace =
        clearDataOps st r ++
          (folderReplayOps sorted st r ++
            (fileReplayOps sorted b st r ++
              (((repoAfterFiles sorted b st r).files.head?).map
                (fun f => Op.selectOp f.id)).toList)) := by
      show clearDataOps st r ++ _ ++ _ ++ _ = _
      simp [List.append_assoc]
    rw [htr2]
    intro hi hj hpi hqj
    refine index_lt_of_split _ _
      (fun o => Op.isDelFile o || Op.isDelFolder o) Op.isNewFolder ?_ ?_ i j hi hj
      (by simp only [Bool.or_eq_true]; exact hpi) hqj
    · intro o ho
      show (Op.isDelFile o || Op.isDelFolder o) = false
      rcases List.mem_append.mp ho with h | h
      · rw [(hshape3 o h).1, (hshape3 o h).2.1]
        rfl
      · rcases List.mem_append.mp h with h | h
        · rw [(hshape4 o h).1, (hshape4 o h).2.1]
          rfl
        · rw [(hshape5 o h).1, (hshape5 o h).2.1]
          rfl
    · intro o ho
      rcases clearDataOps_shape st r o ho with ⟨k, rfl⟩ | ⟨k, rfl⟩ <;> rfl
  · intro hpi hqj
    revert hi hj hpi hqj
    have htr3 : (importBackup sorted b st r).trace =
        (clearDataOps st r ++ folderReplayOps sorted st r) ++
          (fileReplayOps sorted b st r ++
            (((repoAfterFiles sorted b st r).files.head?).map
              (fun f => Op.selectOp f.id)).toList) := by
      show clearDataOps st r ++ _ ++ _ ++ _ = _
      simp [List.append_assoc]
    rw [htr3]
    intro hi hj hpi hqj
    refine index_lt_of_split _ _ Op.isNewFolder Op.isNewFile ?_ ?_ i j hi hj hpi hqj
    · intro o ho
      rcases List.mem_append.mp ho with h | h
      · exact (hshape4 o h).2.2
      · exact (hshape5 o h).2.2.1
    · intro o ho
      rcases List.mem_append.mp ho with h | h
      · rcases clearDataOps_shape st r o h with ⟨k, hk⟩ | ⟨k, hk⟩ <;> rw [hk] <;> rfl
      · exact (hshape3 o h).2.2

/-- App state for the C9 witness: one cached folder (id 2) and one cached
file (id 1). -/
def wipeState : AppState :=
  ⟨[⟨2, "F", none, true⟩], [⟨1, none, "a", "", "", ""⟩], none, "", false⟩

/-- The repository matching wipeState. -/
def wipeRepo : Repo := ⟨[⟨2, "F", none, true⟩], [⟨1, none, "a", "", "", ""⟩], 3⟩

/-- An empty snapshot. -/
def wipeBackup : Backup := ⟨1, "t", [], []⟩

/-- C9, witness: in the concrete run whose trace is a deleteFile call
followed by a deleteFolder call, all three orderings hold at indices 0, 1. -/
theorem import_phases_witness :
    (Op.isDelFile ((importBackup [] wipeBackup wipeState wipeRepo).trace.get
        ⟨0, by decide⟩) = true →
      Op.isDelFolder ((importBackup [] wipeBackup wipeState wipeRepo).trace.get
        ⟨1, by decide⟩) = true → 0 < 1) ∧
    ((Op.isDelFile ((importBackup [] wipeBackup wipeState wipeRepo).trace.get
        ⟨0, by decide⟩) = true ∨
      Op.isDelFolder ((importBackup [] wipeBackup wipeState wipeRepo).trace.get
        ⟨0, by decide⟩) = true) →
      Op.isNewFolder ((importBackup [] wipeBackup wipeState wipeRepo).trace.get
        ⟨1, by decide⟩) = true → 0 < 1) ∧
    (Op.isNewFolder ((importBackup [] wipeBackup wipeState wipeRepo).trace.get
        ⟨0, by decide⟩) = true →
      Op.isNewFile ((importBackup [] wipeBackup wipeState wipeRepo).trace.get
        ⟨1, by decide⟩) = true → 0 < 1) :=
  import_phases_ordered [] wipeBackup wipeState wipeRepo 0 1 (by decide) (by decide)

/-- sortedFolders contract (the spec's topological order): scanning the list
with the already-seen ids accumulated, every non-null parentId references an
already-seen folder id, i.e. every folder appears after its parent. -/
def parentsOk : List Nat → List Folder → Bool
  | _, [] => true
  | seen, f :: rest =>
    (match f.parentId with
     | none => true
     | some p => decide (p ∈ seen)) && parentsOk (seen ++ [f.id]) rest

lemma parentsOk_mem_ids (fs : List Folder) : ∀ (seen : List Nat),
    parentsOk seen fs = true →
    ∀ f ∈ fs, ∀ p, f.parentId = some p → p ∈ seen ∨ p ∈ fs.map Folder.id := by
  induction fs with
  | nil =>
    intro seen _ f hf
    cases hf
  | cons g rest ih =>
    intro seen hok f hf p hp
    simp only [parentsOk] at hok
    rw [Bool.and_eq_true] at hok
    rcases hok with ⟨hg, hrest⟩
    rcases List.mem_cons.mp hf with rfl | hfr
    · rw [hp] at hg
      exact Or.inl (of_decide_eq_true hg)
    · rcases ih (seen ++ [g.id]) hrest f hfr p hp with h | h
      · rcases List.mem_append.mp h with h | h
        · exact Or.inl h
        · rcases List.mem_singleton.mp h with rfl
          exact Or.inr (by simp)
      · exact Or.inr (by simp [h])

lemma mem_toggle_of_ne (r : Repo) (i : Nat) (fo : Folder)
    (hfo : fo ∈ r.folders) (hne : fo.id ≠ i) : fo ∈ (toggleFolderOpenR r i).folders := by
  rw [toggleFolderOpenR]
  refine List.mem_map.mpr ⟨fo, hfo, ?_⟩
  rw [if_neg hne]

lemma mem_toggle_fields (r : Repo) (i : Nat) (fo : Folder) (hfo : fo ∈ r.folders) :
    ∃ nf, nf ∈ (toggleFolderOpenR r i).folders ∧ nf.id = fo.id ∧
      nf.name = fo.name ∧ nf.parentId = fo.parentId := by
  refine ⟨if fo.id = i then { fo with isOpen := !fo.isOpen } else fo,
    List.mem_map.mpr ⟨fo, hfo, rfl⟩, ?_⟩
  split <;> exact ⟨rfl, rfl, rfl⟩

lemma map_id_toggle (l : List Folder) (i : Nat) :
    (l.map (fun f => if f.id = i then { f with isOpen := !f.isOpen } else f)).map
      Folder.id = l.map Folder.id := by
  induction l with
  | nil => rfl
  | cons x xs ih =>
    simp only [List.map_cons, ih]
    congr 1
    split <;> rfl

lemma toggle_ids (r : Repo) (i : Nat) :
    (toggleFolderOpenR r i).folders.map Folder.id = r.folders.map Folder.id :=
  map_id_toggle r.folders i

lemma replayFolders_preserves (fs : List Folder) : ∀ (r : Repo) (m : List (Nat × Nat))
    (fo : Folder), fo ∈ r.folders → fo.id < r.nextId →
    fo ∈ (replayFolders fs r m).1.folders := by
  induction fs with
  | nil =>
    intro r m fo hfo _
    exact hfo
  | cons f rest ih =>
    intro r m fo hfo hlt
    simp only [replayFolders]
    have hfo1 : fo ∈ ((createFolderR r f.name
        (match f.parentId with | none => none | some p => lookupMap m p)).2).folders :=
      List.mem_append_left _ hfo
    by_cases hop : f.isOpen = false
    · rw [if_pos hop]
      refine ih _ _ fo (mem_toggle_of_ne _ _ fo hfo1 (Nat.ne_of_lt hlt)) ?_
      show fo.id < r.nextId + 1
      omega
    · rw [if_neg hop]
      refine ih _ _ fo hfo1 ?_
      show fo.id < r.nextId + 1
      omega

lemma replayFolders_spec (fs : List Folder) : ∀ (r : Repo) (m : List (Nat × Nat)),
    (∀ fo ∈ r.folders, fo.id < r.nextId) →
    ((r.folders.map Folder.id).Nodup) →
    (∀ e ∈ m, e.2 < r.nextId) →
    (∀ e ∈ m, ∃ nf, nf ∈ r.folders ∧ nf.id = e.2) →
    ((keysOf m ++ fs.map Folder.id).Nodup) →
    (parentsOk (keysOf m) fs = true) →
    (∀ fo ∈ (replayFolders fs r m).1.folders, fo.id < (replayFolders fs r m).1.nextId) ∧
    ((replayFolders fs r m).1.folders.map Folder.id).Nodup ∧
    (∀ k, (lookupMap m k).isSome = true →
      lookupMap (replayFolders fs r m).2.1 k = lookupMap m k) ∧
    (∀ e ∈ (replayFolders fs r m).2.1, e.2 < (replayFolders fs r m).1.nextId ∧
      ∃ nf, nf ∈ (replayFolders fs r m).1.folders ∧ nf.id = e.2) ∧
    (∀ g ∈ fs, ∃ nid nf,
      lookupMap (replayFolders fs r m).2.1 g.id = some nid ∧
      nf ∈ (replayFolders fs r m).1.folders ∧ nf.id = nid ∧ nf.name = g.name ∧
      nf.parentId = g.parentId.bind (lookupMap (replayFolders fs r m).2.1)) := by
  induction fs with
  | nil =>
    intro r m h1 h2 h3 h4 h5 h6
    refine ⟨h1, h2, ?_, ?_, ?_⟩
    · intro k _
      rfl
    · intro e he
      exact ⟨h3 e he, h4 e he⟩
    · intro g hg
      cases hg
  | cons f rest ih =>
    intro r m h1 h2 h3 h4 h5 h6
    simp only [parentsOk] at h6
    rw [Bool.and_eq_true] at h6
    rcases h6 with ⟨hpf, hrest⟩
    have hfid_not : f.id ∉ keysOf m := by
      intro hmem
      have hdisj := (List.nodup_append.mp (by simpa using h5)).2.2
      exact hdisj hmem (by simp)
    have main : ∀ (np : Option Nat) (r2 : Repo),
        (np = match f.parentId with | none => none | some p => lookupMap m p) →
        r2.nextId = r.nextId + 1 →
        r2.folders.map Folder.id = r.folders.map Folder.id ++ [r.nextId] →
        (∀ fo ∈ r.folders, fo ∈ r2.folders) →
        (∃ nf, nf ∈ r2.folders ∧ nf.id = r.nextId ∧ nf.name = f.name ∧
          nf.parentId = np) →
        ((∀ fo ∈ (replayFolders rest r2 (m ++ [(f.id, r.nextId)])).1.folders,
            fo.id < (replayFolders rest r2 (m ++ [(f.id, r.nextId)])).1.nextId) ∧
         ((replayFolders rest r2 (m ++ [(f.id, r.nextId)])).1.folders.map
            Folder.id).Nodup ∧
         (∀ k, (lookupMap m k).isSome = true →
           lookupMap (replayFolders rest r2 (m ++ [(f.id, r.nextId)])).2.1 k =
             lookupMap m k) ∧
         (∀ e ∈ (replayFolders rest r2 (m ++ [(f.id, r.nextId)])).2.1,
           e.2 < (replayFolders rest r2 (m ++ [(f.id, r.nextId)])).1.nextId ∧
           ∃ nf, nf ∈ (replayFolders rest r2 (m ++ [(f.id, r.nextId)])).1.folders ∧
             nf.id = e.2) ∧
         (∀ g ∈ f :: rest, ∃ nid nf,
           lookupMap (replayFolders rest r2 (m ++ [(f.id, r.nextId)])).2.1 g.id =
             some nid ∧
           nf ∈ (replayFolders rest r2 (m ++ [(f.id, r.nextId)])).1.folders ∧
           nf.id = nid ∧ nf.name = g.name ∧
           nf.parentId = g.parentId.bind
             (lookupMap (replayFolders rest r2 (m ++ [(f.id, r.nextId)])).2.1))) := by
      intro np r2 hnp hA hB hC hD
      have hwf1b : ∀ fo ∈ r2.folders, fo.id < r2.nextId := by
        intro fo hfo
        have hid : fo.id ∈ r2.folders.map Folder.id := List.mem_map_of_mem _ hfo
        rw [hB] at hid
        rw [hA]
        rcases List.mem_append.mp hid with h | h
        · rcases List.mem_map.mp h with ⟨fo0, hfo0, hideq⟩
          have := h1 fo0 hfo0
          omega
        · rcases List.mem_singleton.mp h with hideq
          omega
      have hwf2b : (r2.folders.map Folder.id).Nodup := by
        rw [hB]
        refine List.Nodup.append h2 (List.nodup_singleton _) ?_
        intro a ha hb
        rcases List.mem_singleton.mp hb with rfl
        rcases List.mem_map.mp ha with ⟨fo0, hfo0, hideq⟩
        have := h1 fo0 hfo0
        omega
      have hm1b : ∀ e ∈ m ++ [(f.id, r.nextId)], e.2 < r2.nextId := by
        intro e he
        rw [hA]
        rcases List.mem_append.mp he with h | h
        · have := h3 e h
          omega
        · rcases List.mem_singleton.mp h with rfl
          omega
      have hm2b : ∀ e ∈ m ++ [(f.id, r.nextId)], ∃ nf, nf ∈ r2.folders ∧
          nf.id = e.2 := by
        intro e he
        rcases List.mem_append.mp he with h | h
        · rcases h4 e h with ⟨nf, hnf, hid⟩
          exact ⟨nf, hC nf hnf, hid⟩
        · rcases List.mem_singleton.mp h with rfl
          rcases hD with ⟨nf, hnf, hid, _, _⟩
          exact ⟨nf, hnf, hid⟩
      have hkeys2 : keysOf (m ++ [(f.id, r.nextId)]) = keysOf m ++ [f.id] := by
        simp [keysOf]
      have h5b : (keysOf (m ++ [(f.id, r.nextId)]) ++ rest.map Folder.id).Nodup := by
        rw [hkeys2, List.append_assoc]
        simpa using h5
      have h6b : parentsOk (keysOf (m ++ [(f.id, r.nextId)])) rest = true := by
        rw [hkeys2]
        exact hrest
      obtain ⟨I1, I2, I3, I4, I5⟩ := ih r2 (m ++ [(f.id, r.nextId)])
        hwf1b hwf2b hm1b hm2b h5b h6b
      have hstab : ∀ k, (lookupMap m k).isSome = true →
          lookupMap (m ++ [(f.id, r.nextId)]) k = lookupMap m k :=
        fun k hk => lookupMap_append_left hk
      have hstab2 : ∀ k, (lookupMap m k).isSome = true →
          lookupMap (replayFolders rest r2 (m ++ [(f.id, r.nextId)])).2.1 k =
            lookupMap m k := by
        intro k hk
        rw [I3 k (by rw [hstab k hk]; exact hk), hstab k hk]
      refine ⟨I1, I2, hstab2, I4, ?_⟩
      intro g hg
      rcases List.mem_cons.mp hg with rfl | hgr
      · have hlookm2 : lookupMap (m ++ [(g.id, r.nextId)]) g.id = some r.nextId := by
          rw [lookupMap, List.find?_append]
          have hnone : m.find? (fun e => e.1 == g.id) = none := by
            rw [List.find?_eq_none]
            intro e he hbeq
            exact hfid_not (List.mem_map.mpr ⟨e, he, by simpa using hbeq⟩)
          rw [hnone]
          simp [List.find?]
        have hlookfinal :
            lookupMap (replayFolders rest r2 (m ++ [(g.id, r.nextId)])).2.1 g.id =
              some r.nextId := by
          rw [I3 g.id (by rw [hlookm2]; rfl)]
          exact hlookm2
        rcases hD with ⟨nf0, hnf0, hid0, hname0, hpid0⟩
        have hnfmem : nf0 ∈ (replayFolders rest r2 (m ++ [(g.id, r.nextId)])).1.folders :=
          replayFolders_preserves rest r2 _ nf0 hnf0 (by rw [hA, hid0]; omega)
        refine ⟨r.nextId, nf0, hlookfinal, hnfmem, hid0, hname0, ?_⟩
        rw [hpid0, hnp]
        cases hfp : g.parentId with
        | none => rfl
        | some p =>
          rw [hfp] at hpf
          have hpmem : p ∈ keysOf m := of_decide_eq_true hpf
          have hpsome : (lookupMap m p).isSome = true := lookupMap_isSome hpmem
          simp only [Option.some_bind]
          rw [hstab2 p hpsome]
      · exact I5 g hgr
    by_cases hop : f.isOpen = false
    · simp only [replayFolders]
      rw [if_pos hop]
      refine main (match f.parentId with | none => none | some p => lookupMap m p)
        (toggleFolderOpenR
          ((createFolderR r f.name
            (match f.parentId with | none => none | some p => lookupMap m p)).2)
          r.nextId)
        rfl rfl ?_ ?_ ?_
      · rw [toggle_ids]
        show (r.folders ++
            [(Folder.mk r.nextId f.name
              (match f.parentId with | none => none | some p => lookupMap m p)
              true)]).map Folder.id = _
        rw [List.map_append]
        rfl
      · intro fo hfo
        exact mem_toggle_of_ne _ _ fo (List.mem_append_left _ hfo)
          (Nat.ne_of_lt (h1 fo hfo))
      · refine mem_toggle_fields _ _
          (Folder.mk r.nextId f.name
            (match f.parentId with | none => none | some p => lookupMap m p) true)
          (List.mem_append_right _ (List.mem_singleton_self _))
    · simp only [replayFolders]
      rw [if_neg hop]
      refine main (match f.parentId with | none => none | some p => lookupMap m p)
        ((createFolderR r f.name
          (match f.parentId with | none => none | some p => lookupMap m p)).2)
        rfl rfl ?_ ?_ ?_
      · show (r.folders ++
            [(Folder.mk r.nextId f.name
              (match f.parentId with | none => none | some p => lookupMap m p)
              true)]).map Folder.id = _
        rw [List.map_append]
        rfl
      · intro fo hfo
        exact List.mem_append_left _ hfo
      · exact ⟨(Folder.mk r.nextId f.name
          (match f.parentId with | none => none | some p => lookupMap m p) true),
          List.mem_append_right _ (List.mem_singleton_self _), rfl, rfl, rfl⟩

lemma replayFiles_folders (m : List (Nat × Nat)) (fls : List File) :
    ∀ r : Repo, (replayFiles m fls r).1.folders = r.folders := by
  induction fls with
  | nil =>
    intro r
    rfl
  | cons fl rest ih =>
    intro r
    simp only [replayFiles]
    rw [ih]
    rfl

lemma wipeFilesF_repo (fail : Nat → Bool) (fs : List File) : ∀ r : Repo,
    (wipeFilesF fail fs r).1.folders = r.folders ∧
    (wipeFilesF fail fs r).1.nextId = r.nextId := by
  induction fs with
  | nil =>
    intro r
    exact ⟨rfl, rfl⟩
  | cons f rest ih =>
    intro r
    simp only [wipeFilesF]
    split
    · split
      · exact ⟨rfl, rfl⟩
      · exact ih (deleteFileR r f.id)
    · exact ih r

lemma wipeFoldersF_repo (fail : Nat → Bool) (fs : List Folder) : ∀ r : Repo,
    (wipeFoldersF fail fs r).1.folders.Sublist r.folders ∧
    (wipeFoldersF fail fs r).1.nextId = r.nextId := by
  induction fs with
  | nil =>
    intro r
    exact ⟨List.Sublist.refl _, rfl⟩
  | cons f rest ih =>
    intro r
    simp only [wipeFoldersF]
    split
    · split
      · exact ⟨List.Sublist.refl _, rfl⟩
      · exact ⟨(ih (deleteFolderR r f.id)).1.trans (List.filter_sublist _),
          (ih (deleteFolderR r f.id)).2⟩
    · exact ih r

lemma clearData_wf (st : AppState) (r : Repo) :
    (clearData st r).folders.Sublist r.folders ∧ (clearData st r).nextId = r.nextId := by
  have hf := wipeFilesF_repo (fun _ => false) st.files r
  have hd := wipeFoldersF_repo (fun _ => false) st.folders
    (wipeFilesF (fun _ => false) st.files r).1
  rw [hf.1] at hd
  exact ⟨hd.1, by rw [clearData] at *; rw [hd.2, hf.2]⟩

/-- C3: for every snapshot whose folders form a forest with distinct ids,
replayed in a topological parent-before-child order, the parent/child
relationships among the created folders are isomorphic to the snapshot's:
the created folders carry distinct ids; for each snapshot folder with a null
parentId the created folder (same name) has a null parent too (null parentId
stays null); and for each snapshot folder with a non-null parentId there is
a snapshot folder g carrying that id, and the created folder (same name) has
as parent precisely the created folder for g (same name as g). -/
theorem hierarchy_preserved (sorted : List Folder) (b : Backup) (st : AppState)
    (r : Repo)
    (hr1 : ∀ fo ∈ r.folders, fo.id < r.nextId)
    (hr2 : (r.folders.map Folder.id).Nodup)
    (hperm : sorted.Perm b.folders)
    (hnodup : (sorted.map Folder.id).Nodup)
    (htopo : parentsOk [] sorted = true) :
    (((importBackup sorted b st r).repo.folders.map Folder.id).Nodup) ∧
    (∀ f ∈ b.folders, f.parentId = none →
      ∃ nf, nf ∈ (importBackup sorted b st r).repo.folders ∧
        nf.name = f.name ∧ nf.parentId = none) ∧
    ∀ f ∈ b.folders, ∀ p, f.parentId = some p →
      ∃ g, g ∈ b.folders ∧ g.id = p ∧
      ∃ nf pf, nf ∈ (importBackup sorted b st r).repo.folders ∧
        pf ∈ (importBackup sorted b st r).repo.folders ∧
        nf.name = f.name ∧ nf.parentId = some pf.id ∧ pf.name = g.name := by
  have hfolders_eq : (importBackup sorted b st r).repo.folders =
      (replayFolders sorted (clearData st r) []).1.folders := by
    show (repoAfterFiles sorted b st r).folders = _
    rw [repoAfterFiles, replayFiles_folders]
    rfl
  have hcd := clearData_wf st r
  have h1c : ∀ fo ∈ (clearData st r).folders, fo.id < (clearData st r).nextId := by
    intro fo hfo
    rw [hcd.2]
    exact hr1 fo (hcd.1.subset hfo)
  have h2c : ((clearData st r).folders.map Folder.id).Nodup :=
    hr2.sublist (hcd.1.map _)
  obtain ⟨S1, S2, S3, S4, S5⟩ := replayFolders_spec sorted (clearData st r) []
    h1c h2c (by intro e he; cases he) (by intro e he; cases he)
    (by simpa using hnodup) htopo
  refine ⟨by rw [hfolders_eq]; exact S2, ?_, ?_⟩
  · intro f hf hp
    have hfs : f ∈ sorted := hperm.mem_iff.mpr hf
    rcases S5 f hfs with ⟨nid, nf, hlookf, hnfmem, hnfid, hnfname, hnfpar⟩
    refine ⟨nf, by rw [hfolders_eq]; exact hnfmem, hnfname, ?_⟩
    rw [hnfpar, hp]
    rfl
  intro f hf p hp
  have hfs : f ∈ sorted := hperm.mem_iff.mpr hf
  have hpid : p ∈ sorted.map Folder.id := by
    rcases parentsOk_mem_ids sorted [] htopo f hfs p hp with h | h
    · cases h
    · exact h
  rcases List.mem_map.mp hpid with ⟨g, hg, hgid⟩
  refine ⟨g, hperm.mem_iff.mp hg, hgid, ?_⟩
  rcases S5 f hfs with ⟨nid, nf, hlookf, hnfmem, hnfid, hnfname, hnfpar⟩
  rcases S5 g hg with ⟨gid2, pf, hlookg, hpfmem, hpfid, hpfname, _⟩
  refine ⟨nf, pf, by rw [hfolders_eq]; exact hnfmem,
    by rw [hfolders_eq]; exact hpfmem, hnfname, ?_, hpfname⟩
  rw [hnfpar, hp]
  simp only [Option.some_bind]
  rw [← hgid, hlookg, hpfid]

/-- A depth-3 snapshot folder chain: root, mid inside root, leaf inside mid. -/
def chainRoot : Folder := ⟨1, "root", none, true⟩

/-- The middle folder of the chain, child of chainRoot. -/
def chainMid : Folder := ⟨2, "mid", some 1, true⟩

/-- The leaf folder of the chain, child of chainMid. -/
def chainLeaf : Folder := ⟨3, "leaf", some 2, true⟩

/-- The depth-3 snapshot. -/
def chainBackup : Backup := ⟨1, "t", [chainRoot, chainMid, chainLeaf], []⟩

/-- C3, witness at the depth-3 chain snapshot. -/
theorem hierarchy_preserved_witness :
    (((importBackup [chainRoot, chainMid, chainLeaf] chainBackup emptyState
        emptyRepo).repo.folders.map Folder.id).Nodup) ∧
    (∀ f ∈ chainBackup.folders, f.parentId = none →
      ∃ nf, nf ∈ (importBackup [chainRoot, chainMid, chainLeaf] chainBackup
          emptyState emptyRepo).repo.folders ∧
        nf.name = f.name ∧ nf.parentId = none) ∧
    ∀ f ∈ chainBackup.folders, ∀ p, f.parentId = some p →
      ∃ g, g ∈ chainBackup.folders ∧ g.id = p ∧
      ∃ nf pf, nf ∈ (importBackup [chainRoot, chainMid, chainLeaf] chainBackup
          emptyState emptyRepo).repo.folders ∧
        pf ∈ (importBackup [chainRoot, chainMid, chainLeaf] chainBackup
          emptyState emptyRepo).repo.folders ∧
        nf.name = f.name ∧ nf.parentId = some pf.id ∧ pf.name = g.name :=
  hierarchy_preserved [chainRoot, chainMid, chainLeaf] chainBackup emptyState
    emptyRepo (by decide) (by decide) (List.Perm.refl _) (by decide) (by decide)

end SvelteMark
